import Mathlib

/-!
# Verification of the AIPL save/load chunk handler (`src/saveload/ai_sl.cpp`)

This development embeds the AIPL chunk handler of OpenTTD's save/load system
and the parts of the generic saveload engine it depends on.  The chunk handler
(`AIPLChunkHandler::Load` / `::Save`, `SaveReal_AIPL`, the descriptor tables
`_ai_company_desc` and `_ai_running_desc`, and the staging globals
`_ai_saveload_*`) are translated directly from `ai_sl.cpp`.  The generic
engine functions it calls (`SlObject`, `SlCompatTableHeader`,
`SlIterateArray`, `SlAutolength`, `SlErrorCorrupt`) are not part of the given
sources; they are modelled from the specification, as noted on each such
definition.
-/

set_option maxRecDepth 4000

namespace AISL

/-! ## Version constants -/

/-- Modelled from the spec: the "maximum representable version" sentinel
(`SL_MAX_VERSION`); its exact numeric value is not given by the sources,
any value larger than every released version works. -/
def SL_MAX_VERSION : Nat := 100000

/-- Save/load version 108 (`SLV_108`), at which the `version` field of the
AI company record was introduced. -/
def SLV_108 : Nat := 108

/-- Save/load version 136 (`SLV_136`), at which the `is_random` field of the
AI company record was introduced. -/
def SLV_136 : Nat := 136

/-- Modelled from the spec: the version `SLV_AI_LOCAL_CONFIG` at which the
`is_random` field was retired and the running-AI descriptor table was
introduced.  Its exact numeric value is not in the given sources; any value
between `SLV_136` and `SL_MAX_VERSION` works. -/
def SLV_AI_LOCAL_CONFIG : Nat := 346

/-- Modelled from the spec: the maximum valid slot count for company indices
(`MAX_COMPANIES`); the value mirrors the current build. -/
def MAX_COMPANIES : Nat := 15

/-- Modelled from the spec: the configured maximum length for string fields. -/
def SL_MAX_LEN : Nat := 16384

/-! ## Field descriptors (`SaveLoad` entries built by the `SLEG_*` macros) -/

/-- Primitive encodings used by the AIPL descriptor tables. -/
inductive SleType where
  | SLE_STR
  | SLE_UINT32
  | SLE_BOOL
deriving DecidableEq, Repr

/-- Which of the four staging globals of `ai_sl.cpp` a descriptor references
(`_ai_saveload_name`, `_ai_saveload_settings`, `_ai_saveload_version`,
`_ai_saveload_is_random`). -/
inductive GlobalRef where
  | gName
  | gSettings
  | gVersion
  | gIsRandom
deriving DecidableEq, Repr

/-- One `SaveLoad` field descriptor: a named field bound to a staging global,
with a primitive encoding and an inclusive valid-version range.
Unconditional entries (`SLEG_SSTR`) use the full range `[0, SL_MAX_VERSION]`. -/
structure SaveLoad where
  name : String
  ref : GlobalRef
  type : SleType
  version_from : Nat
  version_to : Nat
deriving DecidableEq, Repr

/-- The staging globals of `ai_sl.cpp`, gathered into one record.  Strings are
byte lists; `_ai_saveload_version` is a C `int`, so an `Int` here. -/
structure AIStaging where
  name : List Nat
  settings : List Nat
  saved_version : Int
  is_random : Bool
deriving DecidableEq, Repr

/-- Values transcoded by the record engine. -/
inductive FieldVal where
  | vstr (s : List Nat)
  | vu32 (n : Nat)
  | vbool (b : Bool)
deriving DecidableEq, Repr

/-- The primitive encoding of a value. -/
def valType : FieldVal → SleType
  | .vstr _ => .SLE_STR
  | .vu32 _ => .SLE_UINT32
  | .vbool _ => .SLE_BOOL

/-- Store a C `int` into a `uint32` slot (two's-complement). -/
def intToU32 (v : Int) : Nat := (v % (4294967296 : Int)).toNat

/-- Read a `uint32` back as a C `int` (two's-complement). -/
def u32ToInt (n : Nat) : Int :=
  if n < 2147483648 then (n : Int) else (n : Int) - 4294967296

/-- Read one staging global as a transcodable value. -/
def stagingGet (st : AIStaging) : GlobalRef → FieldVal
  | .gName => .vstr st.name
  | .gSettings => .vstr st.settings
  | .gVersion => .vu32 (intToU32 st.saved_version)
  | .gIsRandom => .vbool st.is_random

/-- Write one staging global from a transcoded value.  A value whose shape
does not match the global's type leaves the staging unchanged (the descriptor
tables never produce this case). -/
def stagingSet (st : AIStaging) : GlobalRef → FieldVal → AIStaging
  | .gName, .vstr s => { st with name := s }
  | .gSettings, .vstr s => { st with settings := s }
  | .gVersion, .vu32 n => { st with saved_version := u32ToInt n }
  | .gIsRandom, .vbool b => { st with is_random := b }
  | _, _ => st

/-! ## Primitive encodings

Modelled from the spec: fixed-width integers in canonical (big-endian) byte
order, strings as length-prefixed byte sequences bounded by `SL_MAX_LEN`,
booleans as single bytes with only 0/1 valid.  The stream is a list of
byte-sized naturals; a string's length prefix occupies one stream cell. -/

/-- Encode an unsigned 32-bit value as four canonical-order bytes. -/
def encU32 (n : Nat) : List Nat :=
  [n / 16777216 % 256, n / 65536 % 256, n / 256 % 256, n % 256]

/-- Encode a length-prefixed string. -/
def encStr (s : List Nat) : List Nat := s.length :: s

/-- Encode one field value. -/
def encodeVal : FieldVal → List Nat
  | .vstr s => encStr s
  | .vu32 n => encU32 n
  | .vbool b => [if b then 1 else 0]

/-- Decode one field value of the given primitive type from the front of the
stream, returning the value and the remaining stream; `none` is the
corrupt-data condition (read overrun, oversized string, non-0/1 boolean). -/
def decodeVal : SleType → List Nat → Option (FieldVal × List Nat)
  | .SLE_STR, len :: rest =>
      if len ≤ SL_MAX_LEN ∧ len ≤ rest.length then
        some (.vstr (rest.take len), rest.drop len)
      else none
  | .SLE_STR, [] => none
  | .SLE_UINT32, a :: b :: c :: d :: rest =>
      some (.vu32 (a * 16777216 + b * 65536 + c * 256 + d), rest)
  | .SLE_UINT32, _ => none
  | .SLE_BOOL, b :: rest =>
      if b = 0 then some (.vbool false, rest)
      else if b = 1 then some (.vbool true, rest)
      else none
  | .SLE_BOOL, [] => none

/-! ## The AIPL descriptor tables (from `ai_sl.cpp`) -/

/-- The `_ai_company_desc` table of `ai_sl.cpp`:
`SLEG_SSTR("name", ...)`, `SLEG_SSTR("settings", ...)`,
`SLEG_CONDVAR("version", ..., SLV_108, SL_MAX_VERSION)`,
`SLEG_CONDVAR("is_random", ..., SLV_136, SLV_AI_LOCAL_CONFIG)`. -/
def ai_company_desc : List SaveLoad :=
  [⟨"name", .gName, .SLE_STR, 0, SL_MAX_VERSION⟩,
   ⟨"settings", .gSettings, .SLE_STR, 0, SL_MAX_VERSION⟩,
   ⟨"version", .gVersion, .SLE_UINT32, SLV_108, SL_MAX_VERSION⟩,
   ⟨"is_random", .gIsRandom, .SLE_BOOL, SLV_136, SLV_AI_LOCAL_CONFIG⟩]

/-- The `_ai_running_desc` table of `ai_sl.cpp`: the three
`SLEG_CONDSSTR`/`SLEG_CONDVAR` entries valid from `SLV_AI_LOCAL_CONFIG`. -/
def ai_running_desc : List SaveLoad :=
  [⟨"running_name", .gName, .SLE_STR, SLV_AI_LOCAL_CONFIG, SL_MAX_VERSION⟩,
   ⟨"running_settings", .gSettings, .SLE_STR, SLV_AI_LOCAL_CONFIG, SL_MAX_VERSION⟩,
   ⟨"running_version", .gVersion, .SLE_UINT32, SLV_AI_LOCAL_CONFIG, SL_MAX_VERSION⟩]

/-! ## Record engine

Modelled from the spec: `SlObject` applies a descriptor list against the
staging record, transcoding each field in declared order; a field is active
iff `version_from ≤ activeVersion ≤ version_to` (inclusive), with the target
version on save and the file's recorded version on load. -/

/-- The version-gating rule: a field is active at version `v` iff
`version_from ≤ v ≤ version_to`. -/
def isActive (v : Nat) (f : SaveLoad) : Bool :=
  f.version_from ≤ v && v ≤ f.version_to

/-- Modelled from the spec: the save direction of `SlObject` — write every
active field of the table, in declared order, from the staging globals. -/
def slSaveObject (tbl : List SaveLoad) (v : Nat) (st : AIStaging) : List Nat :=
  (tbl.filter (isActive v)).flatMap (fun f => encodeVal (stagingGet st f.ref))

/-- An entry of the effective descriptor list produced by header resolution:
either a current descriptor, or a placeholder for a removed historical field
that consumes that field's byte width and discards the value. -/
inductive ResolvedField where
  | curr (f : SaveLoad)
  | dead (name : String) (t : SleType)
deriving DecidableEq, Repr

/-- Modelled from the spec: the load direction of `SlObject` over a resolved
descriptor list — for each current entry whose range contains the file
version, decode the field into its staging global; placeholders consume their
byte width without touching any staging global; a failed primitive read is
the corrupt-data condition (`none`). -/
def slLoadObject (rt : List ResolvedField) (v : Nat) (st : AIStaging)
    (bytes : List Nat) : Option (AIStaging × List Nat) :=
  match rt with
  | [] => some (st, bytes)
  | .curr f :: rest =>
      if isActive v f then
        match decodeVal f.type bytes with
        | none => none
        | some (val, b) => slLoadObject rest v (stagingSet st f.ref val) b
      else slLoadObject rest v st bytes
  | .dead _ t :: rest =>
      match decodeVal t bytes with
      | none => none
      | some (_, b) => slLoadObject rest v st b

/-! ## Compatibility resolution (`SlCompatTableHeader`) -/

/-- A compat-history entry: a field name that existed in an older version,
with the primitive type giving a removed field's byte width. -/
structure SaveLoadCompat where
  name : String
  type : SleType
deriving DecidableEq, Repr

/-- Modelled from the spec: the `_ai_company_sl_compat` table
(`compat/ai_sl_compat.h` is not in the given sources); it lists the
historical field names of the AIPL company record. -/
def ai_company_sl_compat : List SaveLoadCompat :=
  [⟨"name", .SLE_STR⟩, ⟨"settings", .SLE_STR⟩,
   ⟨"version", .SLE_UINT32⟩, ⟨"is_random", .SLE_BOOL⟩]

/-- Modelled from the spec: `SlCompatTableHeader` resolves the field names
listed in a loaded table header against the current table and the compat
history.  A current-table match binds the current descriptor; a compat-only
match binds a width-consuming placeholder (using the header's recorded
encoding); any other name is corrupt-data (`none`). -/
def resolveHeader (tbl : List SaveLoad) (compat : List SaveLoadCompat)
    (hdr : List (String × SleType)) : Option (List ResolvedField) :=
  match hdr with
  | [] => some []
  | (n, t) :: rest =>
      match tbl.find? (fun f => f.name = n) with
      | some f => (resolveHeader tbl compat rest).map (ResolvedField.curr f :: ·)
      | none =>
          match compat.find? (fun c => c.name = n) with
          | some _ => (resolveHeader tbl compat rest).map (ResolvedField.dead n t :: ·)
          | none => none

/-- The self-describing header a table-mode save emits for a descriptor
table: the field names with their encodings. -/
def headerOf (tbl : List SaveLoad) : List (String × SleType) :=
  tbl.map (fun f => (f.name, f.type))

/-- The running-AI descriptor list as applied by `SlObject(nullptr,
_ai_running_desc)`: a direct (non-table) object, so every entry is a current
descriptor gated by its own version range. -/
def runningResolved : List ResolvedField :=
  ai_running_desc.map ResolvedField.curr

/-! ## Collaborators of the chunk handler

`AIConfig`, `AI`, `Company` and the game-mode globals are external to the
given sources; they are modelled from the spec as far as `ai_sl.cpp`
exercises them. -/

/-- Modelled from the spec: the pool of AI scripts available in the current
build, as consulted by `AIConfig::Change` — an exact (name, version) lookup
and a "latest version of this name" lookup. -/
structure ScriptEnv where
  findExact : List Nat → Int → Bool
  findLatest : List Nat → Option Int

/-- The script `AIConfig::Change(name, version)` binds: version `-1` requests
the latest available version of the name, otherwise the exact pair must be
available. -/
def scriptLookup (env : ScriptEnv) (n : List Nat) (v : Int) : Option Int :=
  if v = -1 then env.findLatest n
  else if env.findExact n v then some v else none

/-- Modelled from the spec: one AI configuration slot, reduced to what the
handler observes — the bound script (`none` means no script, i.e. the
random-AI default) and the settings blob. -/
structure AIConfigM where
  script : Option (List Nat × Int)
  settings : List Nat
deriving DecidableEq, Repr

/-- A cleared configuration slot (`AIConfig::Change(std::nullopt)`):
no script bound. -/
def defaultAIConfig : AIConfigM := ⟨none, []⟩

/-- Modelled from the spec: `AIConfig::Change` — clear the bound script, or
bind the requested script if available. -/
def change (env : ScriptEnv) (cfg : AIConfigM) (nameOpt : Option (List Nat))
    (version : Int) : AIConfigM :=
  match nameOpt with
  | none => { cfg with script := none }
  | some n =>
      { cfg with script := (scriptLookup env n version).map (fun w => (n, w)) }

/-- `config->HasScript()`: whether a script is bound. -/
def hasScript (cfg : AIConfigM) : Bool := cfg.script.isSome

/-- The environment flags the handler branches on: `_game_mode == GM_MENU`,
`_networking`, `_network_server`, `Company::IsValidAiID`, and the script
pool. -/
structure GameEnv where
  scripts : ScriptEnv
  gameModeMenu : Bool
  networking : Bool
  networkServer : Bool
  isValidAiID : Nat → Bool

/-- The condition of line 96 of `ai_sl.cpp`:
`_game_mode == GM_MENU || (_networking && !_network_server)`. -/
def menuOrClient (env : GameEnv) : Bool :=
  env.gameModeMenu || (env.networking && !env.networkServer)

/-- The per-company AI state written by the running-AI part of `Load`:
`Company::Get(index)->ai_config` plus the version value handed to
`AIInstance::Load` via `SetToLoadData`. -/
structure CompanyAI where
  config : AIConfigM
  loadedWith : Int
deriving DecidableEq, Repr

/-- Lines 103-127 of `ai_sl.cpp`: configure the company's game-settings
AI config from the staged fields — random AI when the name is empty or
`is_random` is set; otherwise the exact (name, version), falling back to the
latest version of the name; finally `StringToSettings`. -/
def resolveCompanyConfig (env : ScriptEnv) (cfg0 : AIConfigM)
    (name : List Nat) (version : Int) (isRand : Bool) (settings : List Nat) :
    AIConfigM :=
  let c :=
    if name = [] || isRand then change env cfg0 none (-1)
    else
      let cA := change env cfg0 (some name) version
      if hasScript cA then cA
      else change env cA (some name) (-1)
  { c with settings := settings }

/-- Lines 135-155 of `ai_sl.cpp`: build the fresh `Company::...->ai_config`
from the staged running fields.  If the exact script is unavailable, try the
latest version of the name and force the staged version to `-1` so the
substitute never receives the saved instance data; then `StringToSettings`
and `SetToLoadData(AIInstance::Load(_ai_saveload_version))`.  Returns the
config and the (possibly forced) staged version. -/
def applyRunningConfig (env : ScriptEnv) (name : List Nat) (version : Int)
    (settings : List Nat) : AIConfigM × Int :=
  let c0 := change env defaultAIConfig (some name) version
  if hasScript c0 then ({ c0 with settings := settings }, version)
  else
    let c1 := change env c0 (some name) (-1)
    ({ c1 with settings := settings }, -1)

/-! ## The AIPL `Load` loop body -/

/-- The corrupt-data conditions the AIPL load can raise. -/
inductive SlError where
  | corruptTooManyAI
  | corruptRead
  | corruptUnknownField
deriving DecidableEq, Repr

/-- The effect of one loop iteration: the staging globals after the record,
an optional update of the game-settings config of this index, and an optional
update of the company's running AI. -/
abbrev StepOut := AIStaging × Option AIConfigM × Option CompanyAI

/-- Lines 91-92 of `ai_sl.cpp`: the per-record reset of the conditional
staging globals before `SlObject` is applied. -/
def resetStaging (s : AIStaging) : AIStaging :=
  { s with is_random := false, saved_version := -1 }

/-- Lines 129-156 of `ai_sl.cpp`: for a valid AI company, read the running
descriptor object, build the company's fresh `ai_config` (forcing the staged
version to `-1` when the exact script is unavailable), and hand
`AIInstance::Load(_ai_saveload_version)` to `SetToLoadData`. -/
def stepRunningPart (env : GameEnv) (ver : Nat) (rest : List Nat)
    (cfg2 : AIConfigM) (s2 : AIStaging) : Except SlError StepOut :=
  match slLoadObject runningResolved ver s2 rest with
  | none => .error .corruptRead
  | some (s3, _) =>
      let r := applyRunningConfig env.scripts s3.name s3.saved_version
        s3.settings
      .ok ({ s3 with saved_version := r.2 }, some cfg2, some ⟨r.1, r.2⟩)

/-- Lines 96-156 of `ai_sl.cpp`, after the company record has been applied
to the staging: either the menu/network-client path (read running data and
`AIInstance::LoadEmpty`), or configure the slot's game-settings config and —
for a valid AI company — process the running-AI part. -/
def stepAfterCompany (env : GameEnv) (ver : Nat) (idx : Nat)
    (rest : List Nat) (cfg0 : AIConfigM) (s2 : AIStaging) :
    Except SlError StepOut :=
  if menuOrClient env then
    if env.isValidAiID idx then
      match slLoadObject runningResolved ver s2 rest with
      | none => .error .corruptRead
      | some (s3, _) => .ok (s3, none, none)
    else .ok (s2, none, none)
  else
    let cfg2 := resolveCompanyConfig env.scripts cfg0 s2.name
      s2.saved_version s2.is_random s2.settings
    if !env.isValidAiID idx then .ok (s2, some cfg2, none)
    else stepRunningPart env ver rest cfg2 s2

/-- The body of the `while (SlIterateArray...)` loop of
`AIPLChunkHandler::Load` (lines 90-156 of `ai_sl.cpp`), for one record with
index already checked against `MAX_COMPANIES`: reset `is_random` and
`version`, apply the resolved company table, then the rest of the loop body.
`cfg0` is the current value of the slot's game-settings config. -/
def stepRecord (env : GameEnv) (ver : Nat) (slt : List ResolvedField)
    (idx : Nat) (body : List Nat) (cfg0 : AIConfigM) (s : AIStaging) :
    Except SlError StepOut :=
  match slLoadObject slt ver (resetStaging s) body with
  | none => .error .corruptRead
  | some (s2, rest) => stepAfterCompany env ver idx rest cfg0 s2

/-- The mutable state the AIPL chunk handler touches: the staging globals,
the game-settings AI config slots (one per possible company), and each
company's running AI state. -/
structure AIPLState where
  staging : AIStaging
  gameConfigs : List AIConfigM
  companyAI : List (Option CompanyAI)
deriving DecidableEq, Repr

/-- Lines 84-86 of `ai_sl.cpp`: before iterating, free all current data by
clearing every game-settings AI config slot. -/
def clearAll (S : AIPLState) : AIPLState :=
  { S with gameConfigs := List.replicate MAX_COMPANIES defaultAIConfig }

/-- Apply one record's effect to the handler state. -/
def applyStep (S : AIPLState) (idx : Nat) (o : StepOut) : AIPLState :=
  { staging := o.1,
    gameConfigs := match o.2.1 with
      | some c => S.gameConfigs.set idx c
      | none => S.gameConfigs,
    companyAI := match o.2.2 with
      | some u => S.companyAI.set idx (some u)
      | none => S.companyAI }

/-- The `while` loop of `AIPLChunkHandler::Load` over the decoded array
records: for each record, the index bound check (`SlErrorCorrupt("Too many
AI configs")`) fires before any field of the record is applied; a raised
error stops the iteration, leaving the state accumulated so far. -/
def loadRecords (env : GameEnv) (ver : Nat) (slt : List ResolvedField) :
    List (Nat × List Nat) → AIPLState → AIPLState × Option SlError
  | [], S => (S, none)
  | (idx, body) :: rest, S =>
      if idx ≥ MAX_COMPANIES then (S, some .corruptTooManyAI)
      else
        match stepRecord env ver slt idx body
            (S.gameConfigs.getD idx defaultAIConfig) S.staging with
        | .error e => (S, some e)
        | .ok o => loadRecords env ver slt rest (applyStep S idx o)

/-- `AIPLChunkHandler::Load` from the resolved table on: clear all config
slots, then iterate the records. -/
def aiplLoadRecords (env : GameEnv) (ver : Nat) (slt : List ResolvedField)
    (records : List (Nat × List Nat)) (S : AIPLState) :
    AIPLState × Option SlError :=
  loadRecords env ver slt records (clearAll S)

/-- Modelled from the spec: the load orchestrator catching a fatal
`SlErrorCorrupt` — the whole in-progress load is abandoned and the caller
falls back to the pre-load state. -/
def orchestrateLoad (env : GameEnv) (ver : Nat) (slt : List ResolvedField)
    (records : List (Nat × List Nat)) (S : AIPLState) : AIPLState :=
  match aiplLoadRecords env ver slt records S with
  | (S', none) => S'
  | (_, some _) => S

/-! ## Array iteration

Modelled from the spec: `SlSetArrayIndex`/`SlAutolength` on save emit each
record's index and a length-prefixed body, terminated by the reserved
sentinel `-1`; `SlIterateArray` on load reads an index, stopping at the
sentinel, and hands each length-prefixed body to the handler.  The chunk
stream is a list of integers so the sentinel is representable. -/

/-- Save direction of array iteration: each record as index, body length,
body bytes; then the sentinel. -/
def saveArray (recs : List (Nat × List Nat)) : List Int :=
  recs.flatMap
    (fun r => (r.1 : Int) :: (r.2.length : Int) ::
      r.2.map (fun (b : Nat) => (b : Int)))
    ++ [-1]

/-- Load direction of array iteration: read records until the `-1` sentinel;
a malformed stream (missing sentinel, negative cell, short body) is the
corrupt-data condition (`none`). -/
def loadArray : List Int → Option (List (Nat × List Nat))
  | [] => none
  | i :: rest =>
      if i = -1 then some []
      else
        match rest with
        | [] => none
        | len :: rest2 =>
            if 0 ≤ i ∧ 0 ≤ len ∧ len.toNat ≤ rest2.length ∧
                (rest2.take len.toNat).all (fun x => 0 ≤ x) then
              (loadArray (rest2.drop len.toNat)).map
                (fun l => (i.toNat, (rest2.take len.toNat).map Int.toNat) :: l)
            else none
termination_by s => s.length
decreasing_by
  simp only [List.length_cons, List.length_drop]
  omega

/-- The index sequence `AIPLChunkHandler::Save` emits: every company slot
from `CompanyID::Begin()` up to `MAX_COMPANIES`, in ascending order, each
with its `SlAutolength` record body. -/
def aiplSaveRecords (bodies : Nat → List Nat) : List (Nat × List Nat) :=
  (List.range MAX_COMPANIES).map (fun i => (i, bodies i))

/-! ## Codec lemmas -/

/-- The value constraints under which a field value is encodable: strings
within the configured maximum length, integers within 32 bits. -/
def valOK : FieldVal → Prop
  | .vstr s => s.length ≤ SL_MAX_LEN
  | .vu32 n => n < 4294967296
  | .vbool _ => True

theorem u32_round (v : Int) (h1 : -2147483648 ≤ v) (h2 : v < 2147483648) :
    u32ToInt (intToU32 v) = v := by
  unfold u32ToInt intToU32
  omega

theorem intToU32_lt (v : Int) : intToU32 v < 4294967296 := by
  unfold intToU32
  omega

theorem decodeVal_encodeVal (val : FieldVal) (more : List Nat)
    (h : valOK val) :
    decodeVal (valType val) (encodeVal val ++ more) = some (val, more) := by
  match val with
  | .vstr s =>
      simp only [valOK] at h
      simp only [valType, encodeVal, encStr, decodeVal, List.cons_append]
      rw [if_pos]
      · rw [List.take_left, List.drop_left]
      · refine ⟨h, ?_⟩
        simp
  | .vu32 n =>
      simp only [valOK] at h
      simp only [valType, encodeVal, encU32, decodeVal, List.cons_append,
        List.nil_append, Option.some.injEq, Prod.mk.injEq, FieldVal.vu32.injEq,
        and_true]
      omega
  | .vbool b =>
      cases b <;> simp [valType, encodeVal, decodeVal]

theorem decode_enc_str (s more : List Nat) (h : s.length ≤ SL_MAX_LEN) :
    decodeVal .SLE_STR (encodeVal (.vstr s) ++ more) = some (.vstr s, more) :=
  decodeVal_encodeVal (.vstr s) more h

theorem decode_enc_u32 (n : Nat) (more : List Nat) (h : n < 4294967296) :
    decodeVal .SLE_UINT32 (encodeVal (.vu32 n) ++ more) = some (.vu32 n, more) :=
  decodeVal_encodeVal (.vu32 n) more h

theorem decode_enc_bool (b : Bool) (more : List Nat) :
    decodeVal .SLE_BOOL (encodeVal (.vbool b) ++ more) = some (.vbool b, more) :=
  decodeVal_encodeVal (.vbool b) more trivial

/-! ## Staging lemmas -/

/-- Project the raw staging field selected by a global reference. -/
def stagingSel (st : AIStaging) : GlobalRef → List Nat ⊕ (Int ⊕ Bool)
  | .gName => .inl st.name
  | .gSettings => .inl st.settings
  | .gVersion => .inr (.inl st.saved_version)
  | .gIsRandom => .inr (.inr st.is_random)

theorem stagingSet_sel_ne (st : AIStaging) (r r' : GlobalRef) (val : FieldVal)
    (h : r' ≠ r) : stagingSel (stagingSet st r' val) r = stagingSel st r := by
  cases r <;> cases r' <;> cases val <;>
    simp_all [stagingSel, stagingSet]

/-- Fields whose current entries are all inactive or bound to other globals
are preserved by the load direction of the record engine. -/
theorem slLoadObject_preserves (rt : List ResolvedField) (v : Nat)
    (r : GlobalRef) (st st' : AIStaging) (bytes rest : List Nat)
    (hload : slLoadObject rt v st bytes = some (st', rest))
    (hr : ∀ f, ResolvedField.curr f ∈ rt → isActive v f = true → f.ref ≠ r) :
    stagingSel st' r = stagingSel st r := by
  induction rt generalizing st bytes with
  | nil =>
      simp only [slLoadObject, Option.some.injEq, Prod.mk.injEq] at hload
      rw [hload.1]
  | cons e tl ih =>
      match e with
      | .curr f =>
          simp only [slLoadObject] at hload
          by_cases hact : isActive v f = true
          · rw [if_pos hact] at hload
            match hdec : decodeVal f.type bytes with
            | none => rw [hdec] at hload; exact absurd hload (by simp)
            | some (val, b) =>
                rw [hdec] at hload
                have hne : f.ref ≠ r := hr f (by simp) hact
                rw [ih _ _ hload (fun g hg ha => hr g (by simp [hg]) ha)]
                exact stagingSet_sel_ne st r f.ref val hne
          · rw [if_neg hact] at hload
            exact ih _ _ hload (fun g hg ha => hr g (by simp [hg]) ha)
      | .dead n t =>
          simp only [slLoadObject] at hload
          match hdec : decodeVal t bytes with
          | none => rw [hdec] at hload; exact absurd hload (by simp)
          | some (val, b) =>
              rw [hdec] at hload
              exact ih _ _ hload (fun g hg ha => hr g (by simp [hg]) ha)

/-! ## C1: save-then-load round trip -/

/-- Resolving the header a current save emits binds every current
descriptor. -/
theorem resolveHeader_company_self :
    resolveHeader ai_company_desc ai_company_sl_compat (headerOf ai_company_desc)
      = some (ai_company_desc.map ResolvedField.curr) := by
  rfl

/-- C1: for the AIPL descriptor tables and every staging record whose fields
are representable (string lengths within bound, `version` a 32-bit int),
applying the record engine in save direction and then in load direction at
the same active version marker — with the resolved table obtained from the
emitted header — reproduces the original field values exactly, for every
version at which the record's fields are all within their valid ranges.  The
company table restores all four of name, settings, version, is_random; the
running table restores its three fields. -/
theorem c1_save_load_roundtrip (v : Nat) (st st0 : AIStaging)
    (hver1 : -2147483648 ≤ st.saved_version)
    (hver2 : st.saved_version < 2147483648)
    (hname : st.name.length ≤ SL_MAX_LEN)
    (hset : st.settings.length ≤ SL_MAX_LEN) :
    ((∀ f ∈ ai_company_desc, isActive v f = true) →
      slLoadObject (ai_company_desc.map ResolvedField.curr) v st0
        (slSaveObject ai_company_desc v st) = some (st, [])) ∧
    ((∀ f ∈ ai_running_desc, isActive v f = true) →
      slLoadObject runningResolved v st0 (slSaveObject ai_running_desc v st) =
        some ({ st0 with
                  name := st.name,
                  settings := st.settings,
                  saved_version := st.saved_version }, [])) := by
  constructor
  · intro hact
    have h1 := hact ⟨"name", .gName, .SLE_STR, 0, SL_MAX_VERSION⟩
      (by simp [ai_company_desc])
    have h2 := hact ⟨"settings", .gSettings, .SLE_STR, 0, SL_MAX_VERSION⟩
      (by simp [ai_company_desc])
    have h3 := hact ⟨"version", .gVersion, .SLE_UINT32, SLV_108, SL_MAX_VERSION⟩
      (by simp [ai_company_desc])
    have h4 := hact ⟨"is_random", .gIsRandom, .SLE_BOOL, SLV_136, SLV_AI_LOCAL_CONFIG⟩
      (by simp [ai_company_desc])
    simp only [slSaveObject, ai_company_desc, List.filter_cons, h1, h2, h3, h4,
      if_true, List.filter_nil, List.flatMap_cons, List.flatMap_nil,
      stagingGet, List.map_cons, List.map_nil, slLoadObject]
    simp only [decode_enc_str, decode_enc_u32, decode_enc_bool, hname, hset,
      intToU32_lt, slLoadObject, stagingSet,
      u32_round st.saved_version hver1 hver2]
  · intro hact
    have h1 := hact ⟨"running_name", .gName, .SLE_STR, SLV_AI_LOCAL_CONFIG,
      SL_MAX_VERSION⟩ (by simp [ai_running_desc])
    have h2 := hact ⟨"running_settings", .gSettings, .SLE_STR,
      SLV_AI_LOCAL_CONFIG, SL_MAX_VERSION⟩ (by simp [ai_running_desc])
    have h3 := hact ⟨"running_version", .gVersion, .SLE_UINT32,
      SLV_AI_LOCAL_CONFIG, SL_MAX_VERSION⟩ (by simp [ai_running_desc])
    simp only [slSaveObject, ai_running_desc, List.filter_cons, h1, h2, h3,
      if_true, List.filter_nil, List.flatMap_cons, List.flatMap_nil,
      stagingGet, List.map_cons, List.map_nil, slLoadObject, runningResolved]
    simp only [decode_enc_str, decode_enc_u32, hname, hset, intToU32_lt,
      slLoadObject, stagingSet, u32_round st.saved_version hver1 hver2]

/-- Witness for C1 at a concrete record and version. -/
theorem c1_save_load_roundtrip_witness :
    slLoadObject (ai_company_desc.map ResolvedField.curr) 140
      ⟨[], [], 0, false⟩
      (slSaveObject ai_company_desc 140 ⟨[1, 2], [3], 7, true⟩) =
      some (⟨[1, 2], [3], 7, true⟩, []) :=
  (c1_save_load_roundtrip 140 ⟨[1, 2], [3], 7, true⟩ ⟨[], [], 0, false⟩
    (by decide) (by decide) (by decide) (by decide)).1
    (by decide)

/-! ## C2: conditional-field version gating -/

/-- C2: a conditional field with range `[validFrom, validUntil]` is
transcoded at active version `v` iff `validFrom ≤ v ≤ validUntil`
(inclusive, applied identically on save — target version — and load — file
version).  Consequently the `version` field (validFrom `SLV_108`)
contributes no bytes to a stream produced for a target below 108 — the
record is just the two strings — and is skipped without consuming bytes or
touching the staging global when loading a pre-108 file; and the
`is_random` field is active exactly on the inclusive range
`[SLV_136, SLV_AI_LOCAL_CONFIG]`. -/
theorem c2_version_gating (v : Nat) (f : SaveLoad) (st : AIStaging)
    (bytes : List Nat) :
    (isActive v f = true ↔ (f.version_from ≤ v ∧ v ≤ f.version_to)) ∧
    (v < SLV_108 →
      slSaveObject ai_company_desc v st = encStr st.name ++ encStr st.settings) ∧
    (v < SLV_108 →
      slLoadObject [ResolvedField.curr
          ⟨"version", .gVersion, .SLE_UINT32, SLV_108, SL_MAX_VERSION⟩]
        v st bytes = some (st, bytes)) ∧
    (isActive v
        ⟨"is_random", .gIsRandom, .SLE_BOOL, SLV_136, SLV_AI_LOCAL_CONFIG⟩ =
          true ↔
      (SLV_136 ≤ v ∧ v ≤ SLV_AI_LOCAL_CONFIG)) := by
  refine ⟨by simp [isActive], ?_, ?_, by simp [isActive]⟩
  · intro hv
    have g1 : isActive v
        ⟨"name", .gName, .SLE_STR, 0, SL_MAX_VERSION⟩ = true := by
      simp only [SLV_108] at hv
      simp [isActive, SL_MAX_VERSION]
      omega
    have g2 : isActive v
        ⟨"settings", .gSettings, .SLE_STR, 0, SL_MAX_VERSION⟩ = true := by
      simp only [SLV_108] at hv
      simp [isActive, SL_MAX_VERSION]
      omega
    have g3 : isActive v
        ⟨"version", .gVersion, .SLE_UINT32, SLV_108, SL_MAX_VERSION⟩ = false := by
      simp only [SLV_108] at hv
      simp [isActive, SLV_108, SL_MAX_VERSION]
      omega
    have g4 : isActive v
        ⟨"is_random", .gIsRandom, .SLE_BOOL, SLV_136, SLV_AI_LOCAL_CONFIG⟩ =
          false := by
      simp only [SLV_108] at hv
      simp [isActive, SLV_136, SLV_AI_LOCAL_CONFIG]
      omega
    simp [slSaveObject, ai_company_desc, List.filter_cons, g1, g2, g3, g4,
      encodeVal, stagingGet]
  · intro hv
    have g3 : isActive v
        ⟨"version", .gVersion, .SLE_UINT32, SLV_108, SL_MAX_VERSION⟩ = false := by
      simp only [SLV_108] at hv
      simp [isActive, SLV_108, SL_MAX_VERSION]
      omega
    simp [slLoadObject, g3]

/-- Witness for C2 at version 100: the version field contributes no bytes
and is skipped on load. -/
theorem c2_version_gating_witness :
    slSaveObject ai_company_desc 100 ⟨[5], [6], 3, true⟩ =
      encStr [5] ++ encStr [6] ∧
    slLoadObject [ResolvedField.curr
        ⟨"version", .gVersion, .SLE_UINT32, SLV_108, SL_MAX_VERSION⟩]
      100 ⟨[5], [6], 3, true⟩ [9, 9] = some (⟨[5], [6], 3, true⟩, [9, 9]) :=
  ⟨(c2_version_gating 100
      ⟨"is_random", .gIsRandom, .SLE_BOOL, SLV_136, SLV_AI_LOCAL_CONFIG⟩
      ⟨[5], [6], 3, true⟩ [9, 9]).2.1 (by decide),
   (c2_version_gating 100
      ⟨"is_random", .gIsRandom, .SLE_BOOL, SLV_136, SLV_AI_LOCAL_CONFIG⟩
      ⟨[5], [6], 3, true⟩ [9, 9]).2.2.1 (by decide)⟩

/-! ## C4: header resolution against current table and compat history -/

/-- C4: resolving a loaded table header succeeds iff every listed field name
matches a current descriptor or a compat-history entry; a current-table match
binds the current descriptor, a compat-only match binds a placeholder, and a
placeholder consumes the listed field's exact byte width while leaving the
staging record untouched.  An unmatched name makes resolution fail
(corrupt-data). -/
theorem c4_header_resolution (tbl : List SaveLoad)
    (compat : List SaveLoadCompat) (hdr : List (String × SleType)) :
    ((resolveHeader tbl compat hdr).isSome = true ↔
      ∀ p ∈ hdr, (∃ f ∈ tbl, f.name = p.1) ∨ (∃ c ∈ compat, c.name = p.1)) ∧
    (∀ n t rest f, tbl.find? (fun g => g.name = n) = some f →
      resolveHeader tbl compat ((n, t) :: rest) =
        (resolveHeader tbl compat rest).map (ResolvedField.curr f :: ·)) ∧
    (∀ n t rest c, tbl.find? (fun g => g.name = n) = none →
      compat.find? (fun g => g.name = n) = some c →
      resolveHeader tbl compat ((n, t) :: rest) =
        (resolveHeader tbl compat rest).map (ResolvedField.dead n t :: ·)) ∧
    (∀ n t rt v st val more, valType val = t → valOK val →
      slLoadObject (ResolvedField.dead n t :: rt) v st (encodeVal val ++ more) =
        slLoadObject rt v st more) := by
  refine ⟨?_, ?_, ?_, ?_⟩
  · induction hdr with
    | nil => simp [resolveHeader]
    | cons p rest ih =>
        obtain ⟨n, t⟩ := p
        simp only [resolveHeader]
        cases h1 : tbl.find? (fun g => g.name = n) with
        | some f =>
            have hf := List.find?_some h1
            have hmem := List.mem_of_find?_eq_some h1
            rw [Option.isSome_map', ih]
            constructor
            · intro h p hp
              rcases List.mem_cons.mp hp with rfl | hp'
              · exact Or.inl ⟨f, hmem, by simpa using hf⟩
              · exact h p hp'
            · intro h p hp
              exact h p (List.mem_cons_of_mem _ hp)
        | none =>
            cases h2 : compat.find? (fun g => g.name = n) with
            | some c =>
                have hc := List.find?_some h2
                have hmem := List.mem_of_find?_eq_some h2
                rw [Option.isSome_map', ih]
                constructor
                · intro h p hp
                  rcases List.mem_cons.mp hp with rfl | hp'
                  · exact Or.inr ⟨c, hmem, by simpa using hc⟩
                  · exact h p hp'
                · intro h p hp
                  exact h p (List.mem_cons_of_mem _ hp)
            | none =>
                constructor
                · intro h
                  simp at h
                · intro h
                  exfalso
                  rcases h (n, t) (List.mem_cons_self _ _) with
                    ⟨f, hf, hfn⟩ | ⟨c, hc, hcn⟩
                  · have hne := List.find?_eq_none.mp h1 f hf
                    simp only [decide_eq_true_eq] at hne
                    exact hne hfn
                  · have hne := List.find?_eq_none.mp h2 c hc
                    simp only [decide_eq_true_eq] at hne
                    exact hne hcn
  · intro n t rest f hfind
    simp only [resolveHeader, hfind]
  · intro n t rest c hfind1 hfind2
    simp only [resolveHeader, hfind1, hfind2]
  · intro n t rt v st val more ht hok
    subst ht
    simp only [slLoadObject, decodeVal_encodeVal val more hok]

/-- Witness for C4: a header naming a current field and a removed historical
field resolves to the current descriptor plus a width-consuming placeholder;
the placeholder consumes exactly the one byte of a boolean. -/
theorem c4_header_resolution_witness :
    resolveHeader ai_company_desc [⟨"old_field", .SLE_BOOL⟩]
        [("name", .SLE_STR), ("old_field", .SLE_BOOL)] =
      some [ResolvedField.curr ⟨"name", .gName, .SLE_STR, 0, SL_MAX_VERSION⟩,
        ResolvedField.dead "old_field" .SLE_BOOL] ∧
    slLoadObject [ResolvedField.dead "old_field" .SLE_BOOL] 200
        ⟨[1], [2], 3, false⟩ (encodeVal (.vbool true) ++ [7]) =
      slLoadObject [] 200 ⟨[1], [2], 3, false⟩ [7] := by
  constructor
  · rw [(c4_header_resolution ai_company_desc [⟨"old_field", .SLE_BOOL⟩]
        []).2.1 "name" .SLE_STR [("old_field", .SLE_BOOL)]
        ⟨"name", .gName, .SLE_STR, 0, SL_MAX_VERSION⟩ (by decide)]
    rw [(c4_header_resolution ai_company_desc [⟨"old_field", .SLE_BOOL⟩]
        []).2.2.1 "old_field" .SLE_BOOL [] ⟨"old_field", .SLE_BOOL⟩
        (by decide) (by decide)]
    rfl
  · exact (c4_header_resolution ai_company_desc [⟨"old_field", .SLE_BOOL⟩]
      []).2.2.2 "old_field" .SLE_BOOL [] 200 ⟨[1], [2], 3, false⟩
      (.vbool true) [7] (by decide) trivial

/-! ## C7: array-mode save/load round trip -/

/-- C7: an array-mode chunk save emits each saved slot index followed by a
length-prefixed record body and terminates with the `-1` sentinel; loading
reproduces exactly the saved index/body sequence, terminating at the
sentinel rather than at a fixed count, for any set of (possibly
non-contiguous) indices.  The AIPL `Save()` itself emits exactly the slot
indices `0 .. MAX_COMPANIES - 1`, in strictly ascending order. -/
theorem c7_array_roundtrip (recs : List (Nat × List Nat))
    (bodies : Nat → List Nat) :
    loadArray (saveArray recs) = some recs ∧
    (aiplSaveRecords bodies).map Prod.fst = List.range MAX_COMPANIES ∧
    List.Chain' (· < ·) ((aiplSaveRecords bodies).map Prod.fst) := by
  have hmap : (aiplSaveRecords bodies).map Prod.fst = List.range MAX_COMPANIES := by
    unfold aiplSaveRecords
    rw [List.map_map]
    have h : (Prod.fst ∘ fun i : Nat => (i, bodies i)) = id := by
      funext b
      rfl
    rw [h, List.map_id]
  refine ⟨?_, hmap, by rw [hmap]; exact (List.pairwise_lt_range _).chain'⟩
  induction recs with
  | nil =>
      rw [show saveArray [] = [-1] from rfl, loadArray]
      rw [if_pos rfl]
  | cons r tl ih =>
      obtain ⟨i, body⟩ := r
      have hstream : saveArray ((i, body) :: tl) =
          (i : Int) :: (body.length : Int) ::
            (body.map (fun (b : Nat) => (b : Int)) ++ saveArray tl) := by
        simp only [saveArray, List.flatMap_cons, List.cons_append,
          List.append_assoc]
      have hlen : (body.map (fun (b : Nat) => (b : Int))).length = body.length :=
        List.length_map body _
      have htoNat : ((body.length : Int)).toNat = body.length := rfl
      have htake : ((body.map (fun (b : Nat) => (b : Int)) ++ saveArray tl).take
          body.length) = body.map (fun (b : Nat) => (b : Int)) := by
        rw [← hlen, List.take_left]
      have hdrop : ((body.map (fun (b : Nat) => (b : Int)) ++ saveArray tl).drop
          body.length) = saveArray tl := by
        rw [← hlen, List.drop_left]
      rw [hstream, loadArray]
      rw [if_neg (by omega)]
      rw [if_pos]
      · rw [htoNat, htake, hdrop, ih, Option.map_some']
        have hback : (body.map (fun (b : Nat) => (b : Int))).map Int.toNat =
            body := by
          rw [List.map_map]
          have h : (Int.toNat ∘ fun (b : Nat) => (b : Int)) = id := by
            funext b
            rfl
          rw [h, List.map_id]
        rw [hback]
        rfl
      · refine ⟨by omega, by omega, ?_, ?_⟩
        · rw [htoNat, List.length_append, hlen]
          omega
        · rw [htoNat, htake, List.all_eq_true]
          intro x hx
          obtain ⟨b, _, rfl⟩ := List.mem_map.mp hx
          simp

/-! ## C5 and C8: index bound check and atomic abort -/

/-- The record loop processes a concatenation by running the first part and,
only if it raised no error, continuing with the second from the reached
state; an error stops the iteration where it occurred. -/
theorem loadRecords_append (env : GameEnv) (ver : Nat)
    (slt : List ResolvedField) (a b : List (Nat × List Nat)) (S : AIPLState) :
    loadRecords env ver slt (a ++ b) S =
      match loadRecords env ver slt a S with
      | (T, none) => loadRecords env ver slt b T
      | (T, some e) => (T, some e) := by
  induction a generalizing S with
  | nil => simp [loadRecords]
  | cons r tl ih =>
      obtain ⟨idx, body⟩ := r
      simp only [List.cons_append, loadRecords]
      by_cases hidx : idx ≥ MAX_COMPANIES
      · rw [if_pos hidx, if_pos hidx]
      · rw [if_neg hidx, if_neg hidx]
        cases stepRecord env ver slt idx body
            (S.gameConfigs.getD idx defaultAIConfig) S.staging with
        | error e => rfl
        | ok o => exact ih _

/-- C5: during the AIPL load loop, a record whose array index is not the
`-1` sentinel (the sentinel never reaches the loop body) but reaches or
exceeds `MAX_COMPANIES` raises corrupt-data ("Too many AI configs")
immediately: the state reached after the preceding records is returned
untouched, so no field of the offending record is applied. -/
theorem c5_index_bound (env : GameEnv) (ver : Nat) (slt : List ResolvedField)
    (pre : List (Nat × List Nat)) (idx : Nat) (body : List Nat)
    (rest : List (Nat × List Nat)) (S T : AIPLState)
    (hidx : idx ≥ MAX_COMPANIES)
    (hpre : loadRecords env ver slt pre (clearAll S) = (T, none)) :
    aiplLoadRecords env ver slt (pre ++ (idx, body) :: rest) S =
      (T, some .corruptTooManyAI) := by
  unfold aiplLoadRecords
  rw [loadRecords_append, hpre]
  simp only [loadRecords]
  rw [if_pos hidx]

/-- Witness for C5: index 15 with an empty preceding segment. -/
theorem c5_index_bound_witness :
    aiplLoadRecords
      ⟨⟨fun _ _ => false, fun _ => none⟩, true, false, false, fun _ => false⟩
      300 [] [(15, [0, 0])] ⟨⟨[], [], 0, false⟩, [], []⟩ =
      (clearAll ⟨⟨[], [], 0, false⟩, [], []⟩, some .corruptTooManyAI) :=
  c5_index_bound
    ⟨⟨fun _ _ => false, fun _ => none⟩, true, false, false, fun _ => false⟩
    300 [] [] 15 [0, 0] [] ⟨⟨[], [], 0, false⟩, [], []⟩
    (clearAll ⟨⟨[], [], 0, false⟩, [], []⟩) (by decide) rfl

/-- C8: a fatal corrupt-data failure aborts the entire load — once the loop
has raised an error, no later record is applied (the concatenation returns
exactly the failing prefix's outcome), and the orchestrator discards the
in-progress state and falls back to the pre-load state. -/
theorem c8_atomic_abort (env : GameEnv) (ver : Nat) (slt : List ResolvedField)
    (a b records : List (Nat × List Nat)) (S T : AIPLState) (e : SlError)
    (ha : loadRecords env ver slt a S = (T, some e))
    (hrec : (aiplLoadRecords env ver slt records S).2.isSome = true) :
    loadRecords env ver slt (a ++ b) S = (T, some e) ∧
    orchestrateLoad env ver slt records S = S := by
  constructor
  · rw [loadRecords_append, ha]
  · unfold orchestrateLoad
    cases hres : aiplLoadRecords env ver slt records S with
    | mk S' eo =>
        cases eo with
        | none => rw [hres] at hrec; simp at hrec
        | some e' => rfl

/-- Witness for C8: an out-of-bounds record aborts, later records are not
applied, and the orchestrator returns the pre-load state. -/
theorem c8_atomic_abort_witness :
    loadRecords
      ⟨⟨fun _ _ => false, fun _ => none⟩, true, false, false, fun _ => false⟩
      300 [] ([(20, [])] ++ [(0, [0, 0])]) ⟨⟨[], [], 0, false⟩, [], []⟩ =
      (⟨⟨[], [], 0, false⟩, [], []⟩, some .corruptTooManyAI) ∧
    orchestrateLoad
      ⟨⟨fun _ _ => false, fun _ => none⟩, true, false, false, fun _ => false⟩
      300 [] [(20, [])] ⟨⟨[], [], 0, false⟩, [], []⟩ =
      ⟨⟨[], [], 0, false⟩, [], []⟩ :=
  c8_atomic_abort
    ⟨⟨fun _ _ => false, fun _ => none⟩, true, false, false, fun _ => false⟩
    300 [] [(20, [])] [(0, [0, 0])] [(20, [])] ⟨⟨[], [], 0, false⟩, [], []⟩
    ⟨⟨[], [], 0, false⟩, [], []⟩ .corruptTooManyAI rfl rfl

/-! ## C3: soft degradation for unavailable scripts -/

/-- C3: a loaded record naming an AI script unavailable in the current build
never aborts the load.  The handler first attempts the latest available
version of the same name — the resulting slot configuration binds exactly
`(name, latest)` when some version of the name exists, and no script (the
random-AI default) when none does — and the only errors the loop body can
raise are structural read failures, never a missing-script condition. -/
theorem c3_soft_degradation (env : ScriptEnv) (genv : GameEnv) (ver : Nat)
    (slt : List ResolvedField) (idx : Nat) (body : List Nat)
    (cfg0 : AIConfigM) (s : AIStaging) (name settings : List Nat)
    (version : Int) (isRand : Bool)
    (hname : name ≠ []) (hrand : isRand = false)
    (hunavail : scriptLookup env name version = none) :
    (resolveCompanyConfig env cfg0 name version isRand settings).script =
      (env.findLatest name).map (fun w => (name, w)) ∧
    (∀ e, stepRecord genv ver slt idx body cfg0 s = .error e →
      e = .corruptRead) := by
  constructor
  · simp only [resolveCompanyConfig]
    rw [if_neg (by simp [hname, hrand])]
    have h1 : change env cfg0 (some name) version =
        { cfg0 with script := none } := by
      simp only [change, hunavail, Option.map_none']
    rw [h1]
    rw [if_neg (by simp [hasScript])]
    simp only [change, scriptLookup]
    simp
  · intro e he
    simp only [stepRecord, stepAfterCompany, stepRunningPart] at he
    repeat' split at he
    all_goals simp_all

/-- Witness for C3 at a concrete unavailable script with one available
substitute version. -/
theorem c3_soft_degradation_witness :
    (resolveCompanyConfig ⟨fun _ _ => false, fun _ => some 9⟩
        ⟨none, []⟩ [1] 4 false [2]).script = some ([1], 9) :=
  (c3_soft_degradation ⟨fun _ _ => false, fun _ => some 9⟩
    ⟨⟨fun _ _ => false, fun _ => some 9⟩, true, false, false, fun _ => false⟩
    300 [] 0 [] ⟨none, []⟩ ⟨[], [], 0, false⟩ [1] [2] 4 false
    (by decide) rfl rfl).1

/-! ## C10: substituted script never receives the saved instance data -/

/-- C10: when the saved running-AI script (name, version) is unavailable,
the staged version is forced to `-1` before `AIInstance::Load` is invoked —
in particular when the latest version of the same name is configured as the
substitute, that substitute is loaded with version `-1`, never with the
saved version written by a different script version. -/
theorem c10_substitute_version (env : ScriptEnv) (name settings : List Nat)
    (version : Int)
    (hunavail : scriptLookup env name version = none) :
    (applyRunningConfig env name version settings).2 = -1 ∧
    (∀ w, env.findLatest name = some w →
      applyRunningConfig env name version settings =
        (⟨some (name, w), settings⟩, -1)) := by
  have hc0 : change env defaultAIConfig (some name) version =
      { defaultAIConfig with script := none } := by
    simp only [change, hunavail, Option.map_none']
  constructor
  · simp only [applyRunningConfig, hc0]
    rw [if_neg (by simp [hasScript])]
  · intro w hw
    simp only [applyRunningConfig, hc0]
    rw [if_neg (by simp [hasScript])]
    simp only [change, scriptLookup]
    simp [hw, defaultAIConfig]

/-- Witness for C10: an unavailable (name, version) pair with latest
version 9 available is substituted and loaded with version `-1`. -/
theorem c10_substitute_version_witness :
    applyRunningConfig ⟨fun _ _ => false, fun _ => some 9⟩ [1] 4 [2] =
      (⟨some ([1], 9), [2]⟩, -1) :=
  (c10_substitute_version ⟨fun _ _ => false, fun _ => some 9⟩ [1] [2] 4
    rfl).2 9 rfl

/-! ## C9: no staging leak between records -/

/-- Every current descriptor bound by header resolution comes from the
current table. -/
theorem resolveHeader_curr_mem (tbl : List SaveLoad)
    (compat : List SaveLoadCompat) (hdr : List (String × SleType))
    (rt : List ResolvedField)
    (h : resolveHeader tbl compat hdr = some rt) :
    ∀ f, ResolvedField.curr f ∈ rt → f ∈ tbl := by
  induction hdr generalizing rt with
  | nil =>
      simp only [resolveHeader, Option.some.injEq] at h
      subst h
      intro f hf
      simp at hf
  | cons p rest ih =>
      obtain ⟨n, t⟩ := p
      simp only [resolveHeader] at h
      cases h1 : tbl.find? (fun g => g.name = n) with
      | some g =>
          rw [h1] at h
          cases h2 : resolveHeader tbl compat rest with
          | none => rw [h2] at h; simp at h
          | some rt' =>
              rw [h2] at h
              simp only [Option.map_some', Option.some.injEq] at h
              subst h
              intro f hf
              rcases List.mem_cons.mp hf with heq | hmem
              · injection heq with h4
                subst h4
                exact List.mem_of_find?_eq_some h1
              · exact ih rt' h2 f hmem
      | none =>
          rw [h1] at h
          cases h2 : compat.find? (fun g => g.name = n) with
          | some c =>
              rw [h2] at h
              cases h3 : resolveHeader tbl compat rest with
              | none => rw [h3] at h; simp at h
              | some rt' =>
                  rw [h3] at h
                  simp only [Option.map_some', Option.some.injEq] at h
                  subst h
                  intro f hf
                  rcases List.mem_cons.mp hf with heq | hmem
                  · exact absurd heq (by simp)
                  · exact ih rt' h3 f hmem
          | none => rw [h2] at h; simp at h

theorem slLoadObject_preserves_is_random (rt : List ResolvedField) (v : Nat)
    (st st' : AIStaging) (bytes rest : List Nat)
    (hload : slLoadObject rt v st bytes = some (st', rest))
    (hr : ∀ f, ResolvedField.curr f ∈ rt → isActive v f = true →
      f.ref ≠ .gIsRandom) :
    st'.is_random = st.is_random := by
  have h := slLoadObject_preserves rt v .gIsRandom st st' bytes rest hload hr
  simpa [stagingSel] using h

theorem slLoadObject_preserves_version (rt : List ResolvedField) (v : Nat)
    (st st' : AIStaging) (bytes rest : List Nat)
    (hload : slLoadObject rt v st bytes = some (st', rest))
    (hr : ∀ f, ResolvedField.curr f ∈ rt → isActive v f = true →
      f.ref ≠ .gVersion) :
    st'.saved_version = st.saved_version := by
  have h := slLoadObject_preserves rt v .gVersion st st' bytes rest hload hr
  simpa [stagingSel] using h

/-- The version handed to `AIInstance::Load` is the staged version or the
forced `-1`. -/
theorem applyRunningConfig_snd (env : ScriptEnv) (n settings : List Nat)
    (v : Int) :
    (applyRunningConfig env n v settings).2 = v ∨
    (applyRunningConfig env n v settings).2 = -1 := by
  simp only [applyRunningConfig]
  split
  · exact Or.inl rfl
  · exact Or.inr rfl

/-- Characterization of a successful running-AI part. -/
theorem stepRunningPart_ok (env : GameEnv) (ver : Nat) (rest : List Nat)
    (cfg2 : AIConfigM) (s2 s' : AIStaging) (u1 : Option AIConfigM)
    (u2 : Option CompanyAI)
    (h : stepRunningPart env ver rest cfg2 s2 = .ok (s', u1, u2)) :
    ∃ s3 rest2, slLoadObject runningResolved ver s2 rest = some (s3, rest2) ∧
      s' = { s3 with saved_version :=
        (applyRunningConfig env.scripts s3.name s3.saved_version
          s3.settings).2 } ∧
      u1 = some cfg2 ∧
      u2 = some ⟨(applyRunningConfig env.scripts s3.name s3.saved_version
          s3.settings).1,
        (applyRunningConfig env.scripts s3.name s3.saved_version
          s3.settings).2⟩ := by
  cases hload2 : slLoadObject runningResolved ver s2 rest with
  | none =>
      simp only [stepRunningPart, hload2] at h
      exact absurd h (by simp)
  | some pr2 =>
      obtain ⟨s3, rest2⟩ := pr2
      simp only [stepRunningPart, hload2, Except.ok.injEq, Prod.mk.injEq] at h
      obtain ⟨h5, h6, h7⟩ := h
      exact ⟨s3, rest2, rfl, h5.symm, h6.symm, h7.symm⟩

/-- The running-table no-binding facts for the two preserved globals. -/
theorem running_no_gIsRandom (ver : Nat) :
    ∀ f, ResolvedField.curr f ∈ runningResolved → isActive ver f = true →
      f.ref ≠ .gIsRandom := by
  intro f hf _
  simp only [runningResolved, ai_running_desc, List.map_cons, List.map_nil,
    List.mem_cons, List.not_mem_nil, or_false] at hf
  rcases hf with heq | heq | heq <;>
    · injection heq with h4
      subst h4
      simp

/-- Through one loop iteration, the `is_random` staging global ends at its
reset default when no active descriptor binds it. -/
theorem stepRecord_is_random_eq (env : GameEnv) (ver : Nat)
    (slt : List ResolvedField) (idx : Nat) (body : List Nat)
    (cfg0 : AIConfigM) (s s' : AIStaging) (u1 : Option AIConfigM)
    (u2 : Option CompanyAI)
    (hstep : stepRecord env ver slt idx body cfg0 s = .ok (s', u1, u2))
    (h1 : ∀ f, ResolvedField.curr f ∈ slt → isActive ver f = true →
      f.ref ≠ .gIsRandom) :
    s'.is_random = false := by
  have h2 := running_no_gIsRandom ver
  cases hload : slLoadObject slt ver (resetStaging s) body with
  | none =>
      simp only [stepRecord, hload] at hstep
      exact absurd hstep (by simp)
  | some pr =>
      obtain ⟨s2, rest⟩ := pr
      simp only [stepRecord, hload] at hstep
      have h2r : s2.is_random = false := by
        have h := slLoadObject_preserves_is_random slt ver _ _ _ _ hload h1
        simpa [resetStaging] using h
      simp only [stepAfterCompany] at hstep
      split at hstep
      · split at hstep
        · cases hload2 : slLoadObject runningResolved ver s2 rest with
          | none => rw [hload2] at hstep; exact absurd hstep (by simp)
          | some pr2 =>
              obtain ⟨s3, rest2⟩ := pr2
              rw [hload2] at hstep
              simp only [Except.ok.injEq, Prod.mk.injEq] at hstep
              obtain ⟨h5, -, -⟩ := hstep
              subst h5
              rw [slLoadObject_preserves_is_random _ _ _ _ _ _ hload2 h2, h2r]
        · simp only [Except.ok.injEq, Prod.mk.injEq] at hstep
          obtain ⟨h5, -, -⟩ := hstep
          subst h5
          exact h2r
      · split at hstep
        · simp only [Except.ok.injEq, Prod.mk.injEq] at hstep
          obtain ⟨h5, -, -⟩ := hstep
          subst h5
          exact h2r
        · obtain ⟨s3, rest2, hload2, h5, -, -⟩ :=
            stepRunningPart_ok env ver rest _ s2 s' u1 u2 hstep
          subst h5
          have h3r := slLoadObject_preserves_is_random _ _ _ _ _ _ hload2 h2
          simp only [h3r, h2r]

/-- Through one loop iteration, the `version` staging global ends at its
reset default `-1` when no active descriptor binds it. -/
theorem stepRecord_version_eq (env : GameEnv) (ver : Nat)
    (slt : List ResolvedField) (idx : Nat) (body : List Nat)
    (cfg0 : AIConfigM) (s s' : AIStaging) (u1 : Option AIConfigM)
    (u2 : Option CompanyAI)
    (hstep : stepRecord env ver slt idx body cfg0 s = .ok (s', u1, u2))
    (h1 : ∀ f, ResolvedField.curr f ∈ slt → isActive ver f = true →
      f.ref ≠ .gVersion)
    (h2 : ∀ f, ResolvedField.curr f ∈ runningResolved →
      isActive ver f = true → f.ref ≠ .gVersion) :
    s'.saved_version = -1 := by
  cases hload : slLoadObject slt ver (resetStaging s) body with
  | none =>
      simp only [stepRecord, hload] at hstep
      exact absurd hstep (by simp)
  | some pr =>
      obtain ⟨s2, rest⟩ := pr
      simp only [stepRecord, hload] at hstep
      have h2v : s2.saved_version = -1 := by
        have h := slLoadObject_preserves_version slt ver _ _ _ _ hload h1
        simpa [resetStaging] using h
      simp only [stepAfterCompany] at hstep
      split at hstep
      · split at hstep
        · cases hload2 : slLoadObject runningResolved ver s2 rest with
          | none => rw [hload2] at hstep; exact absurd hstep (by simp)
          | some pr2 =>
              obtain ⟨s3, rest2⟩ := pr2
              rw [hload2] at hstep
              simp only [Except.ok.injEq, Prod.mk.injEq] at hstep
              obtain ⟨h5, -, -⟩ := hstep
              subst h5
              rw [slLoadObject_preserves_version _ _ _ _ _ _ hload2 h2, h2v]
        · simp only [Except.ok.injEq, Prod.mk.injEq] at hstep
          obtain ⟨h5, -, -⟩ := hstep
          subst h5
          exact h2v
      · split at hstep
        · simp only [Except.ok.injEq, Prod.mk.injEq] at hstep
          obtain ⟨h5, -, -⟩ := hstep
          subst h5
          exact h2v
        · obtain ⟨s3, rest2, hload2, h5, -, -⟩ :=
            stepRunningPart_ok env ver rest _ s2 s' u1 u2 hstep
          subst h5
          have h3v := slLoadObject_preserves_version _ _ _ _ _ _ hload2 h2
          rcases applyRunningConfig_snd env.scripts s3.name s3.settings
              s3.saved_version with hv | hv
          · rw [hv, h3v]
            exact h2v
          · exact hv

/-- C9: staged transient field values do not leak between consecutive
records of one AIPL load pass.  Each loop iteration resets `is_random` and
`version` before applying the resolved table, so after any successfully
applied record, a conditional field whose version range excludes the file's
version holds its default (`is_random = false`, `version = -1`) regardless
of what the previous record left in the staging globals. -/
theorem c9_no_stale_leak (env : GameEnv) (ver : Nat)
    (hdr : List (String × SleType)) (slt : List ResolvedField) (idx : Nat)
    (body : List Nat) (cfg0 : AIConfigM) (s s' : AIStaging)
    (u1 : Option AIConfigM) (u2 : Option CompanyAI)
    (hslt : resolveHeader ai_company_desc ai_company_sl_compat hdr = some slt)
    (hstep : stepRecord env ver slt idx body cfg0 s = .ok (s', u1, u2)) :
    (¬(SLV_136 ≤ ver ∧ ver ≤ SLV_AI_LOCAL_CONFIG) → s'.is_random = false) ∧
    (ver < SLV_108 → s'.saved_version = -1) := by
  constructor
  · intro hrand
    refine stepRecord_is_random_eq env ver slt idx body cfg0 s s' u1 u2 hstep ?_
    intro f hf ha
    have hmem := resolveHeader_curr_mem _ _ _ _ hslt f hf
    simp only [ai_company_desc, List.mem_cons, List.not_mem_nil, or_false]
      at hmem
    rcases hmem with rfl | rfl | rfl | rfl
    · simp
    · simp
    · simp
    · exfalso
      simp only [isActive, SLV_136, SLV_AI_LOCAL_CONFIG, Bool.and_eq_true,
        decide_eq_true_eq] at ha
      simp only [SLV_136, SLV_AI_LOCAL_CONFIG] at hrand
      exact hrand ha
  · intro hver
    refine stepRecord_version_eq env ver slt idx body cfg0 s s' u1 u2 hstep
      ?_ ?_
    · intro f hf ha
      have hmem := resolveHeader_curr_mem _ _ _ _ hslt f hf
      simp only [ai_company_desc, List.mem_cons, List.not_mem_nil, or_false]
        at hmem
      rcases hmem with rfl | rfl | rfl | rfl
      · simp
      · simp
      · exfalso
        simp only [isActive, SLV_108, SL_MAX_VERSION, Bool.and_eq_true,
          decide_eq_true_eq] at ha
        simp only [SLV_108] at hver
        omega
      · simp
    · intro f hf ha
      simp only [runningResolved, ai_running_desc, List.map_cons,
        List.map_nil, List.mem_cons, List.not_mem_nil, or_false] at hf
      have hver' : ver < SLV_AI_LOCAL_CONFIG := by
        simp only [SLV_108] at hver
        simp only [SLV_AI_LOCAL_CONFIG]
        omega
      rcases hf with heq | heq | heq <;>
        · injection heq with h4
          subst h4
          exfalso
          simp only [isActive, SLV_AI_LOCAL_CONFIG, SL_MAX_VERSION,
            Bool.and_eq_true, decide_eq_true_eq] at ha
          simp only [SLV_AI_LOCAL_CONFIG] at hver'
          omega

/-- Witness for C9 at version 50 in menu mode: after a record application
the staging holds the defaults for both gated fields. -/
theorem c9_no_stale_leak_witness :
    ¬(SLV_136 ≤ 50 ∧ 50 ≤ SLV_AI_LOCAL_CONFIG) ∧ 50 < SLV_108 ∧
    (AIStaging.is_random ⟨[], [], -1, false⟩ = false ∧
     AIStaging.saved_version ⟨[], [], -1, false⟩ = -1) := by
  refine ⟨by decide, by decide, ?_⟩
  have h := c9_no_stale_leak
    ⟨⟨fun _ _ => false, fun _ => none⟩, true, false, false, fun _ => false⟩
    50 (headerOf ai_company_desc) (ai_company_desc.map ResolvedField.curr)
    0 [0, 0] ⟨none, []⟩ ⟨[7], [8], 9, true⟩ ⟨[], [], -1, false⟩ none none
    resolveHeader_company_self (by rfl)
  exact ⟨h.1 (by decide), h.2 (by decide)⟩

/-! ## C6: idempotent reload -/

/-- The resolved table of a modern AIPL save: every current descriptor bound
(the result of resolving the emitted header, `resolveHeader_company_self`). -/
def canonicalSlt : List ResolvedField :=
  ai_company_desc.map ResolvedField.curr

/-- The staging global a reference selects has this primitive type. -/
def refType : GlobalRef → SleType
  | .gName => .SLE_STR
  | .gSettings => .SLE_STR
  | .gVersion => .SLE_UINT32
  | .gIsRandom => .SLE_BOOL

theorem decodeVal_valType (t : SleType) (bytes : List Nat) (val : FieldVal)
    (b : List Nat) (h : decodeVal t bytes = some (val, b)) :
    valType val = t := by
  cases t <;> unfold decodeVal at h <;> repeat' split at h
  all_goals (try simp only [Option.some.injEq, Prod.mk.injEq] at h)
  all_goals
    first
      | (obtain ⟨h1, h2⟩ := h
         subst h1
         rfl)
      | simp_all [valType]

theorem stagingSet_sel_self (a b : AIStaging) (r : GlobalRef) (val : FieldVal)
    (hty : valType val = refType r) :
    stagingSel (stagingSet a r val) r = stagingSel (stagingSet b r val) r := by
  cases r <;> cases val <;> simp_all [valType, refType, stagingSel, stagingSet]

theorem stagingSel_ext (a b : AIStaging)
    (h : ∀ r, stagingSel a r = stagingSel b r) : a = b := by
  obtain ⟨a1, a2, a3, a4⟩ := a
  obtain ⟨b1, b2, b3, b4⟩ := b
  have h1 := h .gName
  have h2 := h .gSettings
  have h3 := h .gVersion
  have h4 := h .gIsRandom
  simp only [stagingSel, Sum.inl.injEq, Sum.inr.injEq] at h1 h2 h3 h4
  simp_all

/-- Two runs of the load direction of the record engine from stagings that
agree on every global the table does not actively write behave identically:
same failure, or same consumed bytes and stagings agreeing on every
global. -/
theorem slLoadObject_congr (rt : List ResolvedField) (v : Nat) :
    ∀ (bytes : List Nat) (a b : AIStaging),
    (∀ f, ResolvedField.curr f ∈ rt → f.type = refType f.ref) →
    (∀ r : GlobalRef,
      (∀ f, ResolvedField.curr f ∈ rt → isActive v f = true → f.ref ≠ r) →
      stagingSel a r = stagingSel b r) →
    (slLoadObject rt v a bytes = none ∧ slLoadObject rt v b bytes = none) ∨
    (∃ a' b' rest, slLoadObject rt v a bytes = some (a', rest) ∧
      slLoadObject rt v b bytes = some (b', rest) ∧
      ∀ r, stagingSel a' r = stagingSel b' r) := by
  induction rt with
  | nil =>
      intro bytes a b _ hinit
      right
      exact ⟨a, b, bytes, rfl, rfl,
        fun r => hinit r (by intro f hf; simp at hf)⟩
  | cons e rt' ih =>
      intro bytes a b hwt hinit
      have hwt' : ∀ f, ResolvedField.curr f ∈ rt' → f.type = refType f.ref :=
        fun f hf => hwt f (List.mem_cons_of_mem _ hf)
      match e with
      | .curr f =>
          by_cases hact : isActive v f = true
          · cases hdec : decodeVal f.type bytes with
            | none =>
                left
                constructor <;> simp [slLoadObject, hact, hdec]
            | some pr =>
                obtain ⟨val, b2⟩ := pr
                have hty : valType val = refType f.ref := by
                  rw [decodeVal_valType _ _ _ _ hdec]
                  exact hwt f (List.mem_cons_self _ _)
                have hinit' : ∀ r : GlobalRef,
                    (∀ g, ResolvedField.curr g ∈ rt' → isActive v g = true →
                      g.ref ≠ r) →
                    stagingSel (stagingSet a f.ref val) r =
                      stagingSel (stagingSet b f.ref val) r := by
                  intro r hr
                  by_cases hrf : f.ref = r
                  · subst hrf
                    exact stagingSet_sel_self a b f.ref val hty
                  · rw [stagingSet_sel_ne a r f.ref val hrf,
                      stagingSet_sel_ne b r f.ref val hrf]
                    refine hinit r ?_
                    intro g hg hag
                    rcases List.mem_cons.mp hg with heq | hg'
                    · injection heq with h4
                      subst h4
                      exact hrf
                    · exact hr g hg' hag
                rcases ih b2 (stagingSet a f.ref val) (stagingSet b f.ref val)
                    hwt' hinit' with ⟨hna, hnb⟩ | ⟨a', b', rest, ha, hb, hsel⟩
                · left
                  constructor <;> simp [slLoadObject, hact, hdec, hna, hnb]
                · right
                  exact ⟨a', b', rest,
                    by simp [slLoadObject, hact, hdec, ha],
                    by simp [slLoadObject, hact, hdec, hb], hsel⟩
          · have hinit' : ∀ r : GlobalRef,
                (∀ g, ResolvedField.curr g ∈ rt' → isActive v g = true →
                  g.ref ≠ r) →
                stagingSel a r = stagingSel b r := by
              intro r hr
              refine hinit r ?_
              intro g hg hag
              rcases List.mem_cons.mp hg with heq | hg'
              · injection heq with h4
                subst h4
                exact absurd hag hact
              · exact hr g hg' hag
            rcases ih bytes a b hwt' hinit' with
                ⟨hna, hnb⟩ | ⟨a', b', rest, ha, hb, hsel⟩
            · left
              constructor <;> simp [slLoadObject, hact, hna, hnb]
            · right
              exact ⟨a', b', rest, by simp [slLoadObject, hact, ha],
                by simp [slLoadObject, hact, hb], hsel⟩
      | .dead n t =>
          have hinit' : ∀ r : GlobalRef,
              (∀ g, ResolvedField.curr g ∈ rt' → isActive v g = true →
                g.ref ≠ r) →
              stagingSel a r = stagingSel b r := by
            intro r hr
            refine hinit r ?_
            intro g hg hag
            rcases List.mem_cons.mp hg with heq | hg'
            · exact absurd heq (by simp)
            · exact hr g hg' hag
          cases hdec : decodeVal t bytes with
          | none =>
              left
              constructor <;> simp [slLoadObject, hdec]
          | some pr =>
              obtain ⟨val, b2⟩ := pr
              rcases ih b2 a b hwt' hinit' with
                  ⟨hna, hnb⟩ | ⟨a', b', rest, ha, hb, hsel⟩
              · left
                constructor <;> simp [slLoadObject, hdec, hna, hnb]
              · right
                exact ⟨a', b', rest, by simp [slLoadObject, hdec, ha],
                  by simp [slLoadObject, hdec, hb], hsel⟩

/-- The slot configuration `Change`/`StringToSettings` produce is determined
by the staged fields alone, not by the slot's previous value. -/
theorem resolveCompanyConfig_cfg0 (env : ScriptEnv) (cfg0 cfg0' : AIConfigM)
    (n : List Nat) (v : Int) (r : Bool) (st : List Nat) :
    resolveCompanyConfig env cfg0 n v r st =
      resolveCompanyConfig env cfg0' n v r st := by
  obtain ⟨c1, c2⟩ := cfg0
  obtain ⟨c1', c2'⟩ := cfg0'
  simp only [resolveCompanyConfig, change, hasScript]
  split
  · rfl
  · split <;> rfl

/-- The loop body after the company record is oblivious to the slot's
previous configuration value. -/
theorem stepAfterCompany_cfg0 (env : GameEnv) (ver : Nat) (idx : Nat)
    (rest : List Nat) (cfg0 cfg0' : AIConfigM) (s2 : AIStaging) :
    stepAfterCompany env ver idx rest cfg0 s2 =
      stepAfterCompany env ver idx rest cfg0' s2 := by
  simp only [stepAfterCompany]
  rw [resolveCompanyConfig_cfg0 env.scripts cfg0 cfg0' s2.name
    s2.saved_version s2.is_random s2.settings]

/-- With the canonical resolved table, the whole loop body is oblivious to
the staging left by the previous record and to the slot's previous
configuration: the per-record reset and the unconditional string fields
overwrite everything the body reads. -/
theorem stepRecord_oblivious (env : GameEnv) (ver : Nat) (idx : Nat)
    (body : List Nat) (cfg0 cfg0' : AIConfigM) (s s' : AIStaging)
    (hver : ver ≤ SL_MAX_VERSION) :
    stepRecord env ver canonicalSlt idx body cfg0 s =
      stepRecord env ver canonicalSlt idx body cfg0' s' := by
  have hwt : ∀ f, ResolvedField.curr f ∈ canonicalSlt →
      f.type = refType f.ref := by
    intro f hf
    simp only [canonicalSlt, ai_company_desc, List.map_cons, List.map_nil,
      List.mem_cons, List.not_mem_nil, or_false] at hf
    rcases hf with heq | heq | heq | heq <;>
      · injection heq with h4
        subst h4
        rfl
  have hinit : ∀ r : GlobalRef,
      (∀ f, ResolvedField.curr f ∈ canonicalSlt → isActive ver f = true →
        f.ref ≠ r) →
      stagingSel (resetStaging s) r = stagingSel (resetStaging s') r := by
    intro r hr
    have hname : isActive ver
        (⟨"name", .gName, .SLE_STR, 0, SL_MAX_VERSION⟩ : SaveLoad) = true := by
      simp [isActive]
      exact hver
    have hsettings : isActive ver
        (⟨"settings", .gSettings, .SLE_STR, 0, SL_MAX_VERSION⟩ : SaveLoad) =
          true := by
      simp [isActive]
      exact hver
    cases r with
    | gName =>
        exact absurd rfl (hr ⟨"name", .gName, .SLE_STR, 0, SL_MAX_VERSION⟩
          (by simp [canonicalSlt, ai_company_desc]) hname)
    | gSettings =>
        exact absurd rfl (hr
          ⟨"settings", .gSettings, .SLE_STR, 0, SL_MAX_VERSION⟩
          (by simp [canonicalSlt, ai_company_desc]) hsettings)
    | gVersion => simp [stagingSel, resetStaging]
    | gIsRandom => simp [stagingSel, resetStaging]
  rcases slLoadObject_congr canonicalSlt ver body (resetStaging s)
      (resetStaging s') hwt hinit with
      ⟨hna, hnb⟩ | ⟨a', b', rest, ha, hb, hsel⟩
  · simp [stepRecord, hna, hnb]
  · have hab : a' = b' := stagingSel_ext a' b' hsel
    subst hab
    simp only [stepRecord, ha, hb]
    exact stepAfterCompany_cfg0 env ver idx rest cfg0 cfg0' a'

/-- The loop body at the canonical staging and slot value; by
`stepRecord_oblivious` this is the value of every invocation. -/
def stepCanon (env : GameEnv) (ver : Nat) (idx : Nat) (body : List Nat) :
    Except SlError StepOut :=
  stepRecord env ver canonicalSlt idx body defaultAIConfig ⟨[], [], -1, false⟩

/-- The per-record effects of a record list, or the first error. -/
def collectUpdates (env : GameEnv) (ver : Nat) :
    List (Nat × List Nat) → Except SlError (List (Nat × StepOut))
  | [] => .ok []
  | (idx, body) :: rest =>
      if idx ≥ MAX_COMPANIES then .error .corruptTooManyAI
      else
        match stepCanon env ver idx body with
        | .error e => .error e
        | .ok o => (collectUpdates env ver rest).map ((idx, o) :: ·)

/-- Replay a list of per-record effects on a state. -/
def applyAll (S : AIPLState) : List (Nat × StepOut) → AIPLState
  | [] => S
  | (idx, o) :: rest => applyAll (applyStep S idx o) rest

/-- A successful record loop is the replay of its collected effects. -/
theorem loadRecords_collect_ok (env : GameEnv) (ver : Nat)
    (hver : ver ≤ SL_MAX_VERSION) :
    ∀ (records : List (Nat × List Nat)) (us : List (Nat × StepOut)),
    collectUpdates env ver records = .ok us →
    ∀ S, loadRecords env ver canonicalSlt records S = (applyAll S us, none) := by
  intro records
  induction records with
  | nil =>
      intro us hc S
      simp only [collectUpdates, Except.ok.injEq] at hc
      subst hc
      simp [loadRecords, applyAll]
  | cons r rest ih =>
      obtain ⟨idx, body⟩ := r
      intro us hc S
      simp only [collectUpdates] at hc
      by_cases hidx : idx ≥ MAX_COMPANIES
      · rw [if_pos hidx] at hc
        exact absurd hc (by simp)
      · rw [if_neg hidx] at hc
        cases hsc : stepCanon env ver idx body with
        | error e =>
            rw [hsc] at hc
            exact absurd hc (by simp)
        | ok o =>
            rw [hsc] at hc
            cases hrest : collectUpdates env ver rest with
            | error e =>
                rw [hrest] at hc
                exact absurd hc (by simp [Except.map])
            | ok us' =>
                rw [hrest] at hc
                simp only [Except.map, Except.ok.injEq] at hc
                subst hc
                have hob := stepRecord_oblivious env ver idx body
                  (S.gameConfigs.getD idx defaultAIConfig) defaultAIConfig
                  S.staging ⟨[], [], -1, false⟩ hver
                have hsc' : stepRecord env ver canonicalSlt idx body
                    (S.gameConfigs.getD idx defaultAIConfig) S.staging =
                    .ok o := by
                  rw [hob]
                  exact hsc
                simp only [loadRecords]
                rw [if_neg hidx]
                simp only [hsc']
                exact ih us' hrest (applyStep S idx o)

/-- A record loop whose collection fails raises an error. -/
theorem loadRecords_collect_err (env : GameEnv) (ver : Nat)
    (hver : ver ≤ SL_MAX_VERSION) :
    ∀ (records : List (Nat × List Nat)) (e : SlError),
    collectUpdates env ver records = .error e →
    ∀ S, (loadRecords env ver canonicalSlt records S).2.isSome = true := by
  intro records
  induction records with
  | nil =>
      intro e hc S
      simp [collectUpdates] at hc
  | cons r rest ih =>
      obtain ⟨idx, body⟩ := r
      intro e hc S
      simp only [collectUpdates] at hc
      by_cases hidx : idx ≥ MAX_COMPANIES
      · simp only [loadRecords]
        rw [if_pos hidx]
        rfl
      · rw [if_neg hidx] at hc
        have hob := stepRecord_oblivious env ver idx body
          (S.gameConfigs.getD idx defaultAIConfig) defaultAIConfig
          S.staging ⟨[], [], -1, false⟩ hver
        cases hsc : stepCanon env ver idx body with
        | error e' =>
            have hsc' : stepRecord env ver canonicalSlt idx body
                (S.gameConfigs.getD idx defaultAIConfig) S.staging =
                .error e' := by
              rw [hob]
              exact hsc
            simp only [loadRecords]
            rw [if_neg hidx]
            simp only [hsc']
            rfl
        | ok o =>
            rw [hsc] at hc
            cases hrest : collectUpdates env ver rest with
            | error e2 =>
                have hsc' : stepRecord env ver canonicalSlt idx body
                    (S.gameConfigs.getD idx defaultAIConfig) S.staging =
                    .ok o := by
                  rw [hob]
                  exact hsc
                simp only [loadRecords]
                rw [if_neg hidx]
                simp only [hsc']
                exact ih e2 hrest (applyStep S idx o)
            | ok us' =>
                rw [hrest] at hc
                exact absurd hc (by simp [Except.map])

/-- The companyAI component of an effect replay. -/
def caiApply (m : List (Option CompanyAI)) :
    List (Nat × StepOut) → List (Option CompanyAI)
  | [] => m
  | (idx, o) :: rest =>
      caiApply (match o.2.2 with
        | some u => m.set idx (some u)
        | none => m) rest

/-- The last companyAI update an effect list makes at an index. -/
def lastCai : List (Nat × StepOut) → Nat → Option CompanyAI
  | [], _ => none
  | (idx, o) :: rest, j =>
      match lastCai rest j with
      | some u => some u
      | none =>
          match o.2.2 with
          | some u => if idx = j then some u else none
          | none => none

theorem applyAll_gameConfigs (us : List (Nat × StepOut)) :
    ∀ S T : AIPLState, S.gameConfigs = T.gameConfigs →
    (applyAll S us).gameConfigs = (applyAll T us).gameConfigs := by
  induction us with
  | nil => intro S T h; exact h
  | cons p rest ih =>
      intro S T h
      obtain ⟨idx, o⟩ := p
      simp only [applyAll]
      apply ih
      simp only [applyStep]
      rw [h]

theorem applyAll_staging_cons (us : List (Nat × StepOut)) :
    ∀ (p : Nat × StepOut) (S T : AIPLState),
    (applyAll S (p :: us)).staging = (applyAll T (p :: us)).staging := by
  induction us with
  | nil =>
      intro p S T
      obtain ⟨idx, o⟩ := p
      simp [applyAll, applyStep]
  | cons q rest ih =>
      intro p S T
      obtain ⟨idx, o⟩ := p
      simp only [applyAll]
      exact ih q (applyStep S idx o) (applyStep T idx o)

theorem applyAll_companyAI (us : List (Nat × StepOut)) :
    ∀ S : AIPLState, (applyAll S us).companyAI = caiApply S.companyAI us := by
  induction us with
  | nil => intro S; rfl
  | cons p rest ih =>
      intro S
      obtain ⟨idx, o⟩ := p
      simp only [applyAll, caiApply]
      rw [ih (applyStep S idx o)]
      rfl

theorem caiApply_length (us : List (Nat × StepOut)) :
    ∀ m : List (Option CompanyAI), (caiApply m us).length = m.length := by
  induction us with
  | nil => intro m; rfl
  | cons p rest ih =>
      intro m
      obtain ⟨idx, o⟩ := p
      simp only [caiApply]
      cases o.2.2 with
      | none => exact ih m
      | some u => rw [ih (m.set idx (some u))]; exact List.length_set ..

theorem caiApply_getElem (us : List (Nat × StepOut)) :
    ∀ (m : List (Option CompanyAI)) (j : Nat),
    (caiApply m us)[j]? =
      match lastCai us j with
      | some u => if j < m.length then some (some u) else m[j]?
      | none => m[j]? := by
  induction us with
  | nil =>
      intro m j
      simp [caiApply, lastCai]
  | cons p rest ih =>
      intro m j
      obtain ⟨idx, o⟩ := p
      simp only [caiApply, lastCai]
      cases ho : o.2.2 with
      | none =>
          rw [ih m j]
          cases hl : lastCai rest j with
          | some u => rfl
          | none => rfl
      | some u =>
          rw [ih (m.set idx (some u)) j]
          cases hl : lastCai rest j with
          | some w =>
              simp only [List.length_set]
              by_cases hj : j < m.length
              · rw [if_pos hj, if_pos hj]
              · rw [if_neg hj, if_neg hj]
                by_cases hij : idx = j
                · subst hij
                  rw [List.set_eq_of_length_le (by omega)]
                · rw [List.getElem?_set_ne hij]
          | none =>
              by_cases hij : idx = j
              · subst hij
                by_cases hj : idx < m.length
                · simp [List.getElem?_set_self hj, hj]
                · rw [List.set_eq_of_length_le (by omega)]
                  simp [hj]
              · rw [List.getElem?_set_ne hij]
                simp [hij]

theorem caiApply_twice (us : List (Nat × StepOut))
    (m : List (Option CompanyAI)) :
    caiApply (caiApply m us) us = caiApply m us := by
  apply List.ext_getElem?
  intro j
  rw [caiApply_getElem, caiApply_getElem]
  cases hl : lastCai us j with
  | none => rfl
  | some u =>
      rw [caiApply_length]
      by_cases hj : j < m.length <;> simp [hj]

/-- Structure extensionality for the handler state. -/
theorem AIPLState_ext (X Y : AIPLState) (h1 : X.staging = Y.staging)
    (h2 : X.gameConfigs = Y.gameConfigs) (h3 : X.companyAI = Y.companyAI) :
    X = Y := by
  obtain ⟨a1, a2, a3⟩ := X
  obtain ⟨b1, b2, b3⟩ := Y
  simp_all

/-- C6: AIPL `Load` clears every game-settings AI config slot before
iterating the records, so re-running `Load` on the same chunk data from the
state a successful load produced yields exactly that state again — no stale
entries accumulate from the previous load.  Stated for the canonical
resolved table (the header a current save emits) at any real version. -/
theorem c6_idempotent_reload (env : GameEnv) (ver : Nat)
    (records : List (Nat × List Nat)) (S S' : AIPLState)
    (hver : ver ≤ SL_MAX_VERSION)
    (h : aiplLoadRecords env ver canonicalSlt records S = (S', none)) :
    aiplLoadRecords env ver canonicalSlt records S' = (S', none) := by
  unfold aiplLoadRecords at h ⊢
  cases hc : collectUpdates env ver records with
  | error e =>
      have hsome := loadRecords_collect_err env ver hver records e hc (clearAll S)
      rw [h] at hsome
      simp at hsome
  | ok us =>
      have h1 := loadRecords_collect_ok env ver hver records us hc (clearAll S)
      rw [h1] at h
      have hS' : applyAll (clearAll S) us = S' := congrArg Prod.fst h
      have h2 := loadRecords_collect_ok env ver hver records us hc (clearAll S')
      rw [h2]
      have hstag : (applyAll (clearAll S') us).staging = S'.staging := by
        cases us with
        | nil => rfl
        | cons p rest =>
            rw [applyAll_staging_cons rest p (clearAll S') (clearAll S), hS']
      have hgc : (applyAll (clearAll S') us).gameConfigs = S'.gameConfigs := by
        rw [applyAll_gameConfigs us (clearAll S') (clearAll S) rfl, hS']
      have hcai : (applyAll (clearAll S') us).companyAI = S'.companyAI := by
        rw [applyAll_companyAI]
        show caiApply S'.companyAI us = S'.companyAI
        rw [← hS', applyAll_companyAI]
        exact caiApply_twice us (clearAll S).companyAI
      rw [AIPLState_ext _ _ hstag hgc hcai]

/-- Witness for C6: one menu-mode record; loading it again from the loaded
state reproduces that state. -/
theorem c6_idempotent_reload_witness :
    aiplLoadRecords
      ⟨⟨fun _ _ => false, fun _ => none⟩, true, false, false, fun _ => false⟩
      300 canonicalSlt [(2, [0, 0, 0, 0, 0, 9, 1])]
      ⟨⟨[], [], 9, true⟩, List.replicate 15 ⟨none, []⟩, []⟩ =
      (⟨⟨[], [], 9, true⟩, List.replicate 15 ⟨none, []⟩, []⟩, none) :=
  c6_idempotent_reload
    ⟨⟨fun _ _ => false, fun _ => none⟩, true, false, false, fun _ => false⟩
    300 [(2, [0, 0, 0, 0, 0, 9, 1])] ⟨⟨[1], [2], 3, true⟩, [], []⟩
    ⟨⟨[], [], 9, true⟩, List.replicate 15 ⟨none, []⟩, []⟩
    (by decide) (by decide)

end AISL
